import Mathlib

/-!
Shallow embedding of the voice capture and endpoint-detection pipeline of
`src/core/src/io/voice.rs` together with the error taxonomy of
`src/core/src/error.rs`.

Modelling conventions:
* Audio samples (Rust `f32`) are modelled as rationals `ℚ`; the `f32`
  arithmetic of the source is modelled as exact rational arithmetic.
* The source compares the RMS energy `sqrt(sum_sq / len)` against the
  constant `0.01`.  Square roots do not exist in `ℚ`, so the embedding
  carries the squared energy `sum_sq / len` and compares it against
  `0.01² = 1/10000`; `sqrt` is strictly monotone on nonnegatives, so the
  boolean outcome `energy > 0.01` is exactly `energy² > 1/10000`.
* Text (Rust `String`) is modelled as `List Char`; `push_str` is list
  append and `str::trim` is dropping whitespace from both ends.
* The asynchronous channel receive loop of `record_audio` is driven by the
  finite list of receptions it observes: each element pairs the value the
  stop flag reads at that reception with the received chunk, and the end
  of the list is the channel closing.
* External collaborators (the rubato FFT resampler's `process` calls and
  the whisper engine's fallible calls) are parameters of the functions
  that invoke them, holding the values those calls return.
-/

namespace AutoAI

abbrev Sample := ℚ
abbrev Chunk := List Sample
abbrev Text := List Char

instance {ε α : Type} [DecidableEq ε] [DecidableEq α] :
    DecidableEq (Except ε α) := fun x y =>
  match x, y with
  | .error a, .error b =>
      if h : a = b then .isTrue (by rw [h]) else .isFalse (by simp [h])
  | .error _, .ok _ => .isFalse (by simp)
  | .ok _, .error _ => .isFalse (by simp)
  | .ok a, .ok b =>
      if h : a = b then .isTrue (by rw [h]) else .isFalse (by simp [h])

/-- Model of `AppError` from `src/core/src/error.rs` (payloads of foreign error
types are modelled as their rendered messages). -/
inductive AppError where
  | Config (msg : String)
  | IoErr (msg : String)
  | Input (msg : String)
  | Output (msg : String)
  | Audio (msg : String)
  | SpeechRecognition (msg : String)
  | NoAudioDevice
  | Http (msg : String)
  | ServiceUnavailable (msg : String)
  | Timeout (seconds : ℕ)
  | Json (msg : String)
  | InvalidInput (msg : String)
  | Llm (msg : String)
  | StreamEnded
  | RetryExhausted (attempts : ℕ)
  | Cancelled
deriving Repr, DecidableEq

/-- Model of `AppError::is_retryable` (error.rs lines 75-80). -/
def AppError.is_retryable : AppError → Bool
  | .Http _ => true
  | .Timeout _ => true
  | .ServiceUnavailable _ => true
  | _ => false

/-- Model of `VoiceState` (voice.rs lines 15-20). -/
inductive VoiceState where
  | WaitingForVoice
  | Recording
  | SilenceDetected (silence_sample : ℕ)
deriving Repr, DecidableEq

/-- The constant `WHISPER_SAMPLE_RATE` (voice.rs line 12). -/
def WHISPER_SAMPLE_RATE : ℕ := 16000

/-- Squared RMS energy of a chunk, modelling `VoiceInput::calculate_energy`
(voice.rs lines 206-213).  The source returns `0.0` for the empty chunk
(guarding the division `sum_sq / len`) and `sqrt(sum_sq / len)` otherwise;
the embedding keeps the value under the square root, see the header. -/
def calculate_energy_sq (samples : Chunk) : ℚ :=
  if samples.isEmpty then 0
  else (samples.map (fun s => s * s)).sum / samples.length

/-- The square of the fixed `ENERGY_THRESHOLD = 0.01` (voice.rs line 115). -/
def ENERGY_THRESHOLD_SQ : ℚ := 1 / 10000

/-- Classification `has_voice` (voice.rs lines 123-124): the chunk's RMS energy exceeds
`0.01`, decided on squares. -/
def has_voice (chunk : Chunk) : Bool :=
  decide (ENERGY_THRESHOLD_SQ < calculate_energy_sq chunk)

/-- The state-machine transition of the capture loop body (voice.rs lines
126-163): given the silence threshold in samples, the current state, the
accumulated buffer and the received chunk, returns the updated buffer and
either the next state, or `none` when the `SilenceDetected` arm reaches
the threshold and executes `break`. -/
def voice_step (silence_threshold_sample : ℕ) (state : VoiceState)
    (buffer : List Sample) (chunk : Chunk) : List Sample × Option VoiceState :=
  match state with
  | .WaitingForVoice =>
      if has_voice chunk then
        (buffer ++ chunk, some .Recording)
      else
        (buffer, some .WaitingForVoice)
  | .Recording =>
      if !has_voice chunk then
        (buffer ++ chunk, some (.SilenceDetected chunk.length))
      else
        (buffer ++ chunk, some .Recording)
  | .SilenceDetected silence_sample =>
      if has_voice chunk then
        (buffer ++ chunk, some .Recording)
      else
        if silence_threshold_sample ≤ silence_sample + chunk.length then
          (buffer ++ chunk, none)
        else
          (buffer ++ chunk, some (.SilenceDetected (silence_sample + chunk.length)))

/-- The capture loop of `record_audio` (voice.rs lines 117-169), driven by
its receptions.  Each reception pairs the stop-flag value observed at line
118 (right after `rx.recv().await` returned the chunk) with that chunk;
an exhausted list is the channel closing.  After the transition the loop
checks the `max_samples` hard cap (lines 165-168).  Returns the final
state variable and accumulated buffer at loop exit. -/
def record_loop (silence_threshold_sample max_samples : ℕ) :
    VoiceState → List Sample → List (Bool × Chunk) → VoiceState × List Sample
  | state, buffer, [] => (state, buffer)
  | state, buffer, (stop, chunk) :: rest =>
      if stop then (state, buffer)
      else
        match voice_step silence_threshold_sample state buffer chunk with
        | (buffer1, none) => (state, buffer1)
        | (buffer1, some state1) =>
            if max_samples ≤ buffer1.length then (state1, buffer1)
            else record_loop silence_threshold_sample max_samples state1 buffer1 rest

/-- Model of `VoiceInput::record_audio` (voice.rs lines 88-182) after the stream has
been built: run the capture loop from `WaitingForVoice` with an empty
buffer, fail with `Audio "no audio signal"` on an empty buffer (lines
173-175), otherwise hand the buffer to `resample_audio` (line 179, taken
as a parameter). -/
def record_audio (silence_threshold_sample max_samples : ℕ)
    (receptions : List (Bool × Chunk))
    (resample : List Sample → Except AppError (List Sample)) :
    Except AppError (List Sample) :=
  let buffer := (record_loop silence_threshold_sample max_samples
    .WaitingForVoice [] receptions).2
  if buffer.isEmpty then .error (.Audio "no audio signal")
  else resample buffer

/-- Zero-padding of a partial block to the resampler's required input
frame count (voice.rs lines 236-238: `padded.resize(input_frames, 0.0)`).
On a block that already has `n` samples this is the identity, matching the
source's non-padding branch (lines 244-249). -/
def pad_chunk (n : ℕ) (c : List Sample) : List Sample :=
  c ++ List.replicate (n - c.length) 0

/-- The block loop of `resample_audio` (voice.rs lines 235-250):
`audio.chunks(input_frames)` processed block by block through the external
resampler `process` (whose return values the parameter holds), outputs
concatenated in order.  `(x :: xs).drop (fin - 1)` is the tail of the
chunking, i.e. `l.drop fin`. -/
def resample_blocks (fin : ℕ) (process : List Sample → List Sample) :
    List Sample → List Sample
  | [] => []
  | x :: xs =>
      process (pad_chunk fin ((x :: xs).take fin))
        ++ resample_blocks fin process (xs.drop (fin - 1))
termination_by l => l.length
decreasing_by simp; omega

/-- Model of `VoiceInput::resample_audio` (voice.rs lines 215-262).  The source
fixes the target rate to `WHISPER_SAMPLE_RATE`; the embedding keeps both
rates as parameters so the rate comparison of line 216 is
`from_rate = to_rate`.  `fin` is the resampler's `input_frames_next()` and
`process` holds the outputs of the external `resampler.process` calls.
The final truncation (lines 252-253) computes
`(audio.len() as f64 * to_rate / from_rate) as usize`, modelled as exact
arithmetic: the natural-number floor `audio.length * to_rate / from_rate`. -/
def resample_audio (from_rate to_rate fin : ℕ)
    (process : List Sample → List Sample) (audio : List Sample) : List Sample :=
  if from_rate = to_rate then audio
  else (resample_blocks fin process audio).take (audio.length * to_rate / from_rate)

/-- Whitespace trimming on both ends, modelling Rust `str::trim`
(voice.rs line 301). -/
def trimChars (l : Text) : Text :=
  (((l.dropWhile Char.isWhitespace).reverse.dropWhile Char.isWhitespace)).reverse

/-- One run of the external whisper engine inside `VoiceInput::transcribe`:
the outcome of each fallible engine call the source makes. -/
structure WhisperRun where
  create_state : Except String Unit
  full : Except String Unit
  full_n_segments : Except String ℕ
  full_get_segment_text : ℕ → Except String Text

/-- The segment-collection loop of `transcribe` (voice.rs lines 294-299):
`for i in 0..num_segments`, appending the segment text only when
`full_get_segment_text(i)` returns `Ok`. -/
def collect_segments (get : ℕ → Except String Text) (n : ℕ) : Text :=
  (List.range n).foldl
    (fun acc i =>
      match get i with
      | .ok s => acc ++ s
      | .error _ => acc)
    []

/-- Model of `VoiceInput::transcribe` (voice.rs lines 264-305): surface each engine
failure as a `SpeechRecognition` error, otherwise collect the segment
texts and return the trimmed concatenation. -/
def transcribe (run : WhisperRun) : Except AppError Text :=
  match run.create_state with
  | .error e => .error (.SpeechRecognition ("create Whisper status failed: " ++ e))
  | .ok _ =>
    match run.full with
    | .error e => .error (.SpeechRecognition ("get transcribe result failed: " ++ e))
    | .ok _ =>
      match run.full_n_segments with
      | .error e => .error (.SpeechRecognition ("get segments count failed: " ++ e))
      | .ok n => .ok (trimChars (collect_segments run.full_get_segment_text n))

/-- One capture→segment→resample→transcribe cycle as `next` observes it:
the outcome of `record_audio` (resampling included) and the whisper run
used on its audio. -/
structure Cycle where
  capture : Except AppError (List Sample)
  run : WhisperRun

/-- Model of `<VoiceInput as InputSource>::next` (voice.rs lines 314-336),
driven by
the list of cycles it performs; `none` means the scripted cycles were
exhausted while the source would have kept retrying.  The second component
counts the capture cycles performed, instrumenting the recursion depth of
`return self.next().await` (line 332); it is not part of the source's
return value.  A `Cancelled` capture error maps to `Ok(None)` (lines
319-321), any other capture or transcription error propagates, an empty
transcription retries, and a non-empty text is returned. -/
def next_voice : List Cycle → Option (Except AppError (Option Text) × ℕ)
  | [] => none
  | c :: rest =>
    match c.capture with
    | .error e => if e = AppError.Cancelled then some (.ok none, 1) else some (.error e, 1)
    | .ok _audio =>
      match transcribe c.run with
      | .error e => some (.error e, 1)
      | .ok text =>
        if text.isEmpty then
          match next_voice rest with
          | none => none
          | some (r, n) => some (r, n + 1)
        else some (.ok (some text), 1)

/-- The segmenter transition exactly as the SPEC's table states it
(spec.md §4.2), written from the spec's words for comparison with
`voice_step`: in `WaitingForVoice` a voiced chunk is appended and moves to
`Recording`, a silent one is discarded; in `Recording` every chunk is
appended and silence moves to `SilenceDetected(len(chunk))`; in
`SilenceDetected(count)` every chunk is appended, voice returns to
`Recording` discarding the count, otherwise the count grows by the chunk
length and the loop terminates (`none`) exactly when it reaches
`silence_threshold_samples`. -/
def spec_transition_table (silence_threshold_samples : ℕ) (state : VoiceState)
    (buffer : List Sample) (chunk : Chunk) : List Sample × Option VoiceState :=
  match state with
  | .WaitingForVoice =>
      if has_voice chunk then (buffer ++ chunk, some .Recording)
      else (buffer, some .WaitingForVoice)
  | .Recording =>
      if has_voice chunk then (buffer ++ chunk, some .Recording)
      else (buffer ++ chunk, some (.SilenceDetected chunk.length))
  | .SilenceDetected count =>
      if has_voice chunk then (buffer ++ chunk, some .Recording)
      else if count + chunk.length ≥ silence_threshold_samples then
        (buffer ++ chunk, none)
      else (buffer ++ chunk, some (.SilenceDetected (count + chunk.length)))

/-- The chunk `[1]` is classified as voiced. -/
lemma has_voice_one : has_voice [1] = true := by
  norm_num [has_voice, calculate_energy_sq, ENERGY_THRESHOLD_SQ]

/-- The chunk `[0]` is classified as silent. -/
lemma has_voice_zero : has_voice [0] = false := by
  norm_num [has_voice, calculate_energy_sq, ENERGY_THRESHOLD_SQ]

/-- The chunk `[0, 0]` is classified as silent. -/
lemma has_voice_zero2 : has_voice [0, 0] = false := by
  norm_num [has_voice, calculate_energy_sq, ENERGY_THRESHOLD_SQ]

/-- The chunk `[1, 1, 1]` is classified as voiced. -/
lemma has_voice_ones3 : has_voice [1, 1, 1] = true := by
  norm_num [has_voice, calculate_energy_sq, ENERGY_THRESHOLD_SQ]

/-- C2: the capture loop's state transition is exactly the pure function
of (current state, chunk energy classification, thresholds) given by the
spec's table: the code's `voice_step` and the spec's
`spec_transition_table` agree on every state, buffer and chunk. -/
theorem voice_step_matches_spec_table (t : ℕ) (s : VoiceState)
    (b : List Sample) (c : Chunk) :
    voice_step t s b c = spec_transition_table t s b c := by
  by_cases h : has_voice c <;>
    cases s <;> simp [voice_step, spec_transition_table, ge_iff_le, h]

/-- C9: the energy computation is total on every chunk including the empty
one: the empty chunk takes the guarded branch and has energy `0`, which is
not above the `0.01` threshold, so an empty chunk is classified silent and
never moves the segmenter out of `WaitingForVoice` (the buffer is left
untouched as well). -/
theorem empty_chunk_energy_zero_stays_waiting :
    calculate_energy_sq [] = 0 ∧
    has_voice [] = false ∧
    ∀ t : ℕ, ∀ b : List Sample,
      voice_step t .WaitingForVoice b [] = (b, some .WaitingForVoice) := by
  refine ⟨rfl, ?_, ?_⟩
  · norm_num [has_voice, calculate_energy_sq, ENERGY_THRESHOLD_SQ]
  · intro t b
    simp [voice_step, has_voice, calculate_energy_sq, ENERGY_THRESHOLD_SQ]

/-- C10: the stop flag is observed only at a reception, and on the
reception where it reads `true` the received chunk is neither appended to
the buffer nor used for a state transition, and no later reception is
processed: the loop's outcome on `pre ++ (true, c) :: rest` is its outcome
on `pre` alone, for every chunk `c` and continuation `rest`. -/
theorem stop_observed_chunk_not_processed (t m : ℕ) (s : VoiceState)
    (b : List Sample) (pre rest : List (Bool × Chunk)) (c : Chunk) :
    record_loop t m s b (pre ++ (true, c) :: rest) = record_loop t m s b pre := by
  induction pre generalizing s b with
  | nil => simp [record_loop]
  | cons p pre ih =>
      obtain ⟨stop, chunk⟩ := p
      cases stop with
      | true => simp [record_loop]
      | false =>
          simp only [List.cons_append, record_loop, Bool.false_eq_true, if_false]
          rcases h : voice_step t s b chunk with ⟨b1, s1?⟩
          cases s1? with
          | none => simp
          | some s1 =>
              by_cases hm : m ≤ b1.length <;> simp [hm, ih]

/-- C7: the equal-rates path of the resampler is the exact identity: for
every sample sequence, input-frame size and external resampler behaviour,
`resample_audio` at equal source and target rates returns its input
unchanged. -/
theorem resample_equal_rates_identity (r fin : ℕ)
    (process : List Sample → List Sample) (audio : List Sample) :
    resample_audio r r fin process audio = audio := by
  simp [resample_audio]

/-- On receptions whose chunks are all silent and whose stop flag always
reads `false`, the capture loop stays in `WaitingForVoice` with an empty
buffer. -/
lemma record_loop_all_silent (t m : ℕ) :
    ∀ recs : List (Bool × Chunk),
      (∀ p ∈ recs, p.1 = false) →
      (∀ p ∈ recs, has_voice p.2 = false) →
      record_loop t m .WaitingForVoice [] recs = (.WaitingForVoice, []) := by
  intro recs
  induction recs with
  | nil => intro _ _; rfl
  | cons p rest ih =>
      intro hstop hsil
      obtain ⟨stop, c⟩ := p
      have h1 : stop = false := hstop _ (List.mem_cons_self _ _)
      have h2 : has_voice c = false := hsil _ (List.mem_cons_self _ _)
      subst h1
      have hrest := ih (fun q hq => hstop q (List.mem_cons_of_mem _ hq))
        (fun q hq => hsil q (List.mem_cons_of_mem _ hq))
      by_cases hm : m ≤ ([] : List Sample).length <;>
        simp [record_loop, voice_step, h2, hm, hrest]

/-- C3 (amended): for every chunk sequence in which each chunk's energy is
at most the threshold and the channel then closes, the segmenter never
leaves `WaitingForVoice` (the state after any prefix of the receptions is
`WaitingForVoice`), the buffer stays empty, and the capture fails with the
`Audio "no audio signal"` error — the code has no dedicated `NoSignal`
variant — and `AppError::is_retryable` classifies this error as NOT
retryable. -/
theorem all_silent_capture_no_signal (t m : ℕ)
    (pre post : List (Bool × Chunk))
    (resample : List Sample → Except AppError (List Sample))
    (hstop : ∀ p ∈ pre ++ post, p.1 = false)
    (hsil : ∀ p ∈ pre ++ post, has_voice p.2 = false) :
    (record_loop t m .WaitingForVoice [] pre).1 = .WaitingForVoice ∧
    (record_loop t m .WaitingForVoice [] (pre ++ post)).2 = [] ∧
    record_audio t m (pre ++ post) resample
      = .error (.Audio "no audio signal") ∧
    (AppError.Audio "no audio signal").is_retryable = false := by
  have hpre := record_loop_all_silent t m pre
    (fun q hq => hstop q (List.mem_append_left _ hq))
    (fun q hq => hsil q (List.mem_append_left _ hq))
  have hall := record_loop_all_silent t m (pre ++ post) hstop hsil
  refine ⟨by simp [hpre], by simp [hall], ?_, rfl⟩
  simp [record_audio, hall]

/-- C3 counterexample to the claim as stated: a concrete all-silent
capture fails with `Audio "no audio signal"`, and `is_retryable` returns
`false` on that error — the caller does not treat it as retryable. -/
theorem no_signal_not_retryable_cex :
    record_audio 5 100 [(false, [0]), (false, [0])] (fun b => .ok b)
      = .error (.Audio "no audio signal") ∧
    (AppError.Audio "no audio signal").is_retryable = false := by
  refine ⟨?_, rfl⟩
  simp [record_audio, record_loop, voice_step, has_voice_zero]

/-- Witness for C3's amended theorem at a concrete all-silent capture. -/
theorem all_silent_capture_no_signal_witness :
    (∀ p ∈ [(false, ([0] : Chunk))] ++ [(false, ([0] : Chunk))], p.1 = false) ∧
    (∀ p ∈ [(false, ([0] : Chunk))] ++ [(false, ([0] : Chunk))],
      has_voice p.2 = false) ∧
    ((record_loop 5 100 .WaitingForVoice [] [(false, ([0] : Chunk))]).1
        = .WaitingForVoice ∧
      (record_loop 5 100 .WaitingForVoice []
        ([(false, ([0] : Chunk))] ++ [(false, ([0] : Chunk))])).2 = [] ∧
      record_audio 5 100 ([(false, ([0] : Chunk))] ++ [(false, ([0] : Chunk))])
        (fun b => .ok b) = .error (.Audio "no audio signal") ∧
      (AppError.Audio "no audio signal").is_retryable = false) :=
  ⟨by simp, by simp [has_voice_zero],
    all_silent_capture_no_signal 5 100 [(false, [0])] [(false, [0])]
      (fun b => .ok b) (by simp) (by simp [has_voice_zero])⟩

/-- A transition grows the buffer by at most the chunk's length. -/
lemma voice_step_length_le (t : ℕ) (s : VoiceState) (b : List Sample)
    (c : Chunk) : (voice_step t s b c).1.length ≤ b.length + c.length := by
  cases s with
  | WaitingForVoice => by_cases h : has_voice c <;> simp [voice_step, h]
  | Recording => by_cases h : has_voice c <;> simp [voice_step, h]
  | SilenceDetected k =>
      by_cases h : has_voice c
      · simp [voice_step, h]
      · simp only [voice_step, h, Bool.false_eq_true, if_false]
        split <;> simp

/-- If every chunk is at most `L` samples and the buffer starts below the
cap, the buffer at loop exit is below `cap + L`: the cap check runs after
every append, so the cap is overshot by less than one chunk. -/
lemma record_loop_length_lt (t m L : ℕ) :
    ∀ (recs : List (Bool × Chunk)) (s : VoiceState) (b : List Sample),
      b.length < m → (∀ p ∈ recs, (p.2 : Chunk).length ≤ L) →
      (record_loop t m s b recs).2.length < m + L := by
  intro recs
  induction recs with
  | nil =>
      intro s b hb _
      simpa [record_loop] using lt_of_lt_of_le hb (Nat.le_add_right m L)
  | cons p rest ih =>
      intro s b hb hL
      obtain ⟨stop, c⟩ := p
      have hc : c.length ≤ L := hL _ (List.mem_cons_self _ _)
      have hrest : ∀ q ∈ rest, (q.2 : Chunk).length ≤ L :=
        fun q hq => hL q (List.mem_cons_of_mem _ hq)
      cases stop with
      | true => simp [record_loop]; omega
      | false =>
          have hgrow := voice_step_length_le t s b c
          simp only [record_loop, Bool.false_eq_true, if_false]
          rcases h : voice_step t s b c with ⟨b1, s1?⟩
          rw [h] at hgrow
          cases s1? with
          | none => simp at hgrow ⊢; omega
          | some s1 =>
              by_cases hm : m ≤ b1.length
              · simp [hm] at hgrow ⊢; omega
              · simp only [hm, if_false]
                exact ih s1 b1 (by omega) hrest

/-- Once the buffer has reached the cap, the loop has already terminated:
feeding any further receptions leaves the outcome unchanged. -/
lemma record_loop_cap_frozen (t m : ℕ) :
    ∀ (recs rest : List (Bool × Chunk)) (s : VoiceState) (b : List Sample),
      b.length < m →
      m ≤ (record_loop t m s b recs).2.length →
      record_loop t m s b (recs ++ rest) = record_loop t m s b recs := by
  intro recs
  induction recs with
  | nil =>
      intro rest s b hb hcap
      exfalso
      simp [record_loop] at hcap
      omega
  | cons p tl ih =>
      intro rest s b hb hcap
      obtain ⟨stop, c⟩ := p
      cases stop with
      | true => simp [record_loop]
      | false =>
          simp only [record_loop, Bool.false_eq_true, if_false,
            List.cons_append] at hcap ⊢
          rcases h : voice_step t s b c with ⟨b1, s1?⟩
          rw [h] at hcap
          cases s1? with
          | none => simp
          | some s1 =>
              by_cases hm : m ≤ b1.length
              · simp [hm]
              · simp only [hm, if_false] at hcap ⊢
                exact ih rest s1 b1 (by omega) hcap

/-- C4: whenever the accumulated buffer reaches `max_samples`, the capture
loop terminates immediately in any state (further receptions change
nothing, overriding the silence logic), the final buffer exceeds the cap
by less than one chunk (`< m + L` for chunks of at most `L` samples), and
the utterance is kept: `record_audio` hands the buffer to the resampler
instead of discarding it. -/
theorem record_audio_hard_cap (t m L : ℕ)
    (receptions rest : List (Bool × Chunk))
    (resample : List Sample → Except AppError (List Sample))
    (hm : 0 < m)
    (hL : ∀ p ∈ receptions, (p.2 : Chunk).length ≤ L)
    (hcap : m ≤ (record_loop t m .WaitingForVoice [] receptions).2.length) :
    (record_loop t m .WaitingForVoice [] receptions).2.length < m + L ∧
    record_loop t m .WaitingForVoice [] (receptions ++ rest)
      = record_loop t m .WaitingForVoice [] receptions ∧
    record_audio t m (receptions ++ rest) resample
      = resample (record_loop t m .WaitingForVoice [] receptions).2 := by
  have hb : ([] : List Sample).length < m := by simpa using hm
  have hlen := record_loop_length_lt t m L receptions .WaitingForVoice [] hb hL
  have hfrozen := record_loop_cap_frozen t m receptions rest .WaitingForVoice [] hb hcap
  refine ⟨hlen, hfrozen, ?_⟩
  have hne : (record_loop t m .WaitingForVoice [] receptions).2 ≠ [] := by
    intro hnil
    rw [hnil] at hcap
    simp at hcap
    omega
  simp [record_audio, hfrozen, List.isEmpty_iff, hne]

/-- Witness for C4 at a concrete capture that hits the cap. -/
theorem record_audio_hard_cap_witness :
    (0 < 5) ∧
    (∀ p ∈ [(false, ([1, 1, 1] : Chunk)), (false, ([1, 1, 1] : Chunk))],
      (p.2 : Chunk).length ≤ 3) ∧
    (5 ≤ (record_loop 10 5 .WaitingForVoice []
      [(false, ([1, 1, 1] : Chunk)), (false, ([1, 1, 1] : Chunk))]).2.length) ∧
    ((record_loop 10 5 .WaitingForVoice []
        [(false, ([1, 1, 1] : Chunk)), (false, ([1, 1, 1] : Chunk))]).2.length
        < 5 + 3 ∧
      record_loop 10 5 .WaitingForVoice []
          ([(false, ([1, 1, 1] : Chunk)), (false, ([1, 1, 1] : Chunk))]
            ++ [(false, ([1, 1, 1] : Chunk))])
        = record_loop 10 5 .WaitingForVoice []
            [(false, ([1, 1, 1] : Chunk)), (false, ([1, 1, 1] : Chunk))] ∧
      record_audio 10 5
          ([(false, ([1, 1, 1] : Chunk)), (false, ([1, 1, 1] : Chunk))]
            ++ [(false, ([1, 1, 1] : Chunk))]) (fun b => .ok b)
        = .ok (record_loop 10 5 .WaitingForVoice []
            [(false, ([1, 1, 1] : Chunk)), (false, ([1, 1, 1] : Chunk))]).2) :=
  ⟨by decide, by simp,
    by simp [record_loop, voice_step, has_voice_ones3],
    record_audio_hard_cap 10 5 3 _ _ (fun b => .ok b) (by decide) (by simp)
      (by simp [record_loop, voice_step, has_voice_ones3])⟩

/-- Dropping a while-prefix twice equals dropping it once. -/
lemma dropWhile_idem (p : Char → Bool) (l : List Char) :
    (l.dropWhile p).dropWhile p = l.dropWhile p := by
  induction l with
  | nil => rfl
  | cons x xs ih => by_cases h : p x <;> simp [List.dropWhile_cons, h, ih]

/-- Dropping a while-prefix returns a suffix of the input. -/
lemma dropWhile_suffix_exists (p : Char → Bool) (l : List Char) :
    ∃ s, s ++ l.dropWhile p = l := by
  induction l with
  | nil => exact ⟨[], rfl⟩
  | cons x xs ih =>
      by_cases h : p x
      · obtain ⟨s, hs⟩ := ih
        exact ⟨x :: s, by simp [List.dropWhile_cons, h, hs]⟩
      · exact ⟨[], by simp [List.dropWhile_cons, h]⟩

/-- Dropping a while-prefix never lengthens a list. -/
lemma dropWhile_length_le (p : Char → Bool) (l : List Char) :
    (l.dropWhile p).length ≤ l.length := by
  induction l with
  | nil => simp
  | cons x xs ih =>
      rw [List.dropWhile_cons]
      cases h : p x
      · simp
      · simp only [if_true, List.length_cons]
        exact le_trans ih (Nat.le_succ _)

/-- A left factor of a `dropWhile`-fixed list is itself `dropWhile`-fixed. -/
lemma dropWhile_fixed_of_factor (p : Char → Bool) (T s x : List Char)
    (hx : x.dropWhile p = x) (happ : T ++ s = x) :
    T.dropWhile p = T := by
  cases T with
  | nil => rfl
  | cons a T1 =>
      have hxa : x = a :: (T1 ++ s) := by rw [← happ]; rfl
      have hpa : p a = false := by
        cases hpab : p a
        · rfl
        · exfalso
          have h1 : x.dropWhile p = (T1 ++ s).dropWhile p := by
            rw [hxa]
            simp [List.dropWhile_cons, hpab]
          rw [hx] at h1
          have hlen := dropWhile_length_le p (T1 ++ s)
          rw [← h1, hxa] at hlen
          simp only [List.length_cons] at hlen
          omega
      rw [List.dropWhile_cons, hpa]
      simp

/-- Trimming is idempotent: a trimmed text is its own trim. -/
lemma trimChars_idem (l : Text) : trimChars (trimChars l) = trimChars l := by
  unfold trimChars
  set L1 := l.dropWhile Char.isWhitespace with hL1
  set T := (L1.reverse.dropWhile Char.isWhitespace).reverse with hT
  have hTrev : T.reverse = L1.reverse.dropWhile Char.isWhitespace := by
    rw [hT, List.reverse_reverse]
  have hfix : T.dropWhile Char.isWhitespace = T := by
    obtain ⟨s, hs⟩ := dropWhile_suffix_exists Char.isWhitespace L1.reverse
    have hfactor : T ++ s.reverse = L1 := by
      have := congrArg List.reverse hs
      simpa [hT] using this
    exact dropWhile_fixed_of_factor Char.isWhitespace T s.reverse L1
      (by rw [hL1]; exact dropWhile_idem _ _) hfactor
  rw [hfix, hTrev, dropWhile_idem, ← hTrev, List.reverse_reverse]

/-- Every text `transcribe` returns successfully is trimmed. -/
lemma transcribe_ok_trimmed (run : WhisperRun) (t : Text)
    (h : transcribe run = .ok t) : trimChars t = t := by
  unfold transcribe at h
  split at h
  · simp at h
  · split at h
    · simp at h
    · split at h
      · simp at h
      · simp only [Except.ok.injEq] at h
        subst h
        exact trimChars_idem _

/-- Every text `next` returns as a successful utterance is non-empty and
trimmed. -/
lemma next_voice_ok_some (cycles : List Cycle) (t : Text) (n : ℕ)
    (h : next_voice cycles = some (.ok (some t), n)) :
    t ≠ [] ∧ trimChars t = t := by
  induction cycles generalizing n with
  | nil => simp [next_voice] at h
  | cons c rest ih =>
      rw [next_voice] at h
      rcases hc : c.capture with e | a
      · rw [hc] at h
        by_cases he : e = AppError.Cancelled <;> simp [he] at h
      · rw [hc] at h
        rcases ht : transcribe c.run with e | text
        · rw [ht] at h; simp at h
        · rw [ht] at h
          dsimp only at h
          cases hemp : text.isEmpty
          · rw [hemp] at h
            simp only [Bool.false_eq_true, if_false, Option.some.injEq,
              Prod.mk.injEq, Except.ok.injEq] at h
            obtain ⟨htext, -⟩ := h
            subst htext
            refine ⟨?_, transcribe_ok_trimmed c.run text ht⟩
            intro hnil
            subst hnil
            simp at hemp
          · rw [hemp] at h
            simp only [if_true] at h
            rcases hr : next_voice rest with _ | ⟨r, n1⟩
            · rw [hr] at h; simp at h
            · rw [hr] at h
              simp only [Option.some.injEq, Prod.mk.injEq] at h
              obtain ⟨hr1, -⟩ := h
              exact ih n1 (by rw [hr, hr1])

/-- C5: every string the `next` operation returns as a successful
utterance is non-empty and trimmed, and an empty transcription re-invokes
the whole cycle: with an engine whose first run transcribes to the empty
string and whose second run transcribes to a non-empty `txt`, exactly two
capture cycles occur and `txt` is returned. -/
theorem next_utterance_nonempty_trimmed_retry
    (cycles rest : List Cycle) (a1 a2 : List Sample) (run1 run2 : WhisperRun)
    (t txt : Text) (n : ℕ)
    (h : next_voice cycles = some (.ok (some t), n))
    (h1 : transcribe run1 = .ok [])
    (h2 : transcribe run2 = .ok txt)
    (htxt : txt ≠ []) :
    (t ≠ [] ∧ trimChars t = t) ∧
    next_voice (⟨.ok a1, run1⟩ :: ⟨.ok a2, run2⟩ :: rest)
      = some (.ok (some txt), 2) := by
  refine ⟨next_voice_ok_some cycles t n h, ?_⟩
  have hfalse : txt.isEmpty = false := by
    cases txt
    · exact absurd rfl htxt
    · rfl
  rw [next_voice, next_voice]
  simp [h1, h2, hfalse]

/-- Witness for C5 at a concrete engine returning the empty string once
and then "ok". -/
theorem next_utterance_nonempty_trimmed_retry_witness :
    next_voice
        [⟨.ok [], ⟨.ok (), .ok (), .ok 0, fun _ => .error "e"⟩⟩,
          ⟨.ok [], ⟨.ok (), .ok (), .ok 1, fun _ => .ok ['o', 'k']⟩⟩]
      = some (.ok (some ['o', 'k']), 2) ∧
    transcribe ⟨.ok (), .ok (), .ok 0, fun _ => .error "e"⟩ = .ok [] ∧
    transcribe ⟨.ok (), .ok (), .ok 1, fun _ => .ok ['o', 'k']⟩
      = .ok ['o', 'k'] ∧
    (['o', 'k'] : Text) ≠ [] ∧
    ((['o', 'k'] : Text) ≠ [] ∧ trimChars ['o', 'k'] = ['o', 'k']) ∧
    next_voice
        (⟨.ok [], ⟨.ok (), .ok (), .ok 0, fun _ => .error "e"⟩⟩
          :: ⟨.ok [], ⟨.ok (), .ok (), .ok 1, fun _ => .ok ['o', 'k']⟩⟩ :: [])
      = some (.ok (some ['o', 'k']), 2) :=
  ⟨by decide, by decide, by decide, by decide,
    next_utterance_nonempty_trimmed_retry
      [⟨.ok [], ⟨.ok (), .ok (), .ok 0, fun _ => .error "e"⟩⟩,
        ⟨.ok [], ⟨.ok (), .ok (), .ok 1, fun _ => .ok ['o', 'k']⟩⟩]
      [] [] [] ⟨.ok (), .ok (), .ok 0, fun _ => .error "e"⟩
      ⟨.ok (), .ok (), .ok 1, fun _ => .ok ['o', 'k']⟩
      ['o', 'k'] ['o', 'k'] 2
      (by decide) (by decide) (by decide) (by decide)⟩

/-- The segment-collection fold, characterized: starting from `acc` it
appends, in order, exactly the texts of the indices whose retrieval
succeeds. -/
lemma collect_segments_foldl (get : ℕ → Except String Text) (l : List ℕ) :
    ∀ acc : Text,
      l.foldl
          (fun acc i =>
            match get i with
            | .ok s => acc ++ s
            | .error _ => acc)
          acc
        = acc ++ (l.filterMap (fun i => (get i).toOption)).flatten := by
  induction l with
  | nil => intro acc; simp
  | cons i l ih =>
      intro acc
      rcases hg : get i with e | s <;>
        simp [hg, ih, Except.toOption, List.append_assoc]

/-- Collection of segments is the in-order concatenation of the successfully
retrieved segment texts. -/
lemma collect_segments_eq (get : ℕ → Except String Text) (n : ℕ) :
    collect_segments get n
      = ((List.range n).filterMap (fun i => (get i).toOption)).flatten := by
  unfold collect_segments
  rw [collect_segments_foldl]
  simp

/-- C8 counterexample to the claim as stated: a whisper run whose first
segment's text retrieval FAILS still transcribes successfully — the
failure is silently ignored and only the second segment's text is
returned. -/
theorem transcribe_swallows_segment_failure_cex :
    transcribe
        ⟨.ok (), .ok (), .ok 2,
          fun i => if i = 0 then .error "segment failed" else .ok ['h', 'i']⟩
      = .ok ['h', 'i'] := by decide

/-- C8 (amended): when the engine-level calls succeed, the transcription
orchestrator returns the trimmed in-order concatenation of the texts of
those segments whose retrieval succeeds; a per-segment retrieval failure
is silently skipped (so such an error IS swallowed, contrary to the
claim's no-swallowing reading). -/
theorem transcribe_concatenates_ok_segments (run : WhisperRun) (n : ℕ)
    (hcs : run.create_state = .ok ()) (hf : run.full = .ok ())
    (hn : run.full_n_segments = .ok n) :
    transcribe run
      = .ok (trimChars
          (((List.range n).filterMap
            (fun i => (run.full_get_segment_text i).toOption)).flatten)) := by
  unfold transcribe
  rw [hcs, hf, hn]
  dsimp only
  rw [collect_segments_eq]

/-- Witness for C8's amended theorem at a concrete whisper run. -/
theorem transcribe_concatenates_ok_segments_witness :
    (WhisperRun.mk (.ok ()) (.ok ()) (.ok 2)
        (fun i => if i = 0 then .error "segment failed" else .ok ['h', 'i'])).create_state
      = .ok () ∧
    (WhisperRun.mk (.ok ()) (.ok ()) (.ok 2)
        (fun i => if i = 0 then .error "segment failed" else .ok ['h', 'i'])).full
      = .ok () ∧
    (WhisperRun.mk (.ok ()) (.ok ()) (.ok 2)
        (fun i => if i = 0 then .error "segment failed" else .ok ['h', 'i'])).full_n_segments
      = .ok 2 ∧
    transcribe
        (WhisperRun.mk (.ok ()) (.ok ()) (.ok 2)
          (fun i => if i = 0 then .error "segment failed" else .ok ['h', 'i']))
      = .ok (trimChars
          (((List.range 2).filterMap
            (fun i =>
              ((WhisperRun.mk (.ok ()) (.ok ()) (.ok 2)
                (fun i => if i = 0 then .error "segment failed"
                  else .ok ['h', 'i'])).full_get_segment_text i).toOption)).flatten)) :=
  ⟨rfl, rfl, rfl,
    transcribe_concatenates_ok_segments
      (WhisperRun.mk (.ok ()) (.ok ()) (.ok 2)
        (fun i => if i = 0 then .error "segment failed" else .ok ['h', 'i']))
      2 rfl rfl rfl⟩

/-- The concatenated resampler output covers the input at the exact rate
ratio: with fixed per-block output size `fout` satisfying
`fout * from_r = fin * to_r`, the total output length times `from_r` is at
least the input length times `to_r` (zero-padding of the last partial
block only adds output). -/
lemma resample_blocks_length_ge (fin fout from_r to_r : ℕ)
    (process : List Sample → List Sample) (hfin : 0 < fin)
    (hp : ∀ c, (process c).length = fout)
    (hrateq : fout * from_r = fin * to_r) :
    ∀ l : List Sample,
      l.length * to_r ≤ (resample_blocks fin process l).length * from_r := by
  intro l
  induction l using resample_blocks.induct fin process with
  | case1 => simp [resample_blocks]
  | case2 x xs ih =>
      rw [resample_blocks]
      have hdroplen : (xs.drop (fin - 1)).length = xs.length - (fin - 1) :=
        List.length_drop _ _
      rw [hdroplen] at ih
      have h1 : (x :: xs).length ≤ fin + (xs.length - (fin - 1)) := by
        simp only [List.length_cons]
        omega
      calc (x :: xs).length * to_r
          ≤ (fin + (xs.length - (fin - 1))) * to_r :=
            Nat.mul_le_mul_right _ h1
        _ = fin * to_r + (xs.length - (fin - 1)) * to_r := Nat.add_mul _ _ _
        _ ≤ fout * from_r
              + (resample_blocks fin process (xs.drop (fin - 1))).length * from_r := by
            rw [hrateq]
            exact Nat.add_le_add_left ih _
        _ = (process (pad_chunk fin ((x :: xs).take fin))
              ++ resample_blocks fin process (xs.drop (fin - 1))).length * from_r := by
            rw [List.length_append, hp]
            rw [Nat.add_mul]

/-- C6: for a capture of `N` samples resampled between distinct rates, the
output is truncated to exactly `⌊N * to_rate / from_rate⌋` samples
(stripping the excess the zero-padded final block introduced), which is
within one sample of `round(N * to_rate / from_rate)` — the claim's
rounding tolerance.  `fout` is the resampler's fixed per-block output
size, tied to the block input size by the exact rate ratio. -/
theorem resample_output_length (from_r to_r fin fout : ℕ)
    (process : List Sample → List Sample) (audio : List Sample)
    (hne : from_r ≠ to_r) (hfrom : 0 < from_r) (hfin : 0 < fin)
    (hp : ∀ c, (process c).length = fout)
    (hrateq : fout * from_r = fin * to_r) :
    (resample_audio from_r to_r fin process audio).length
      = audio.length * to_r / from_r ∧
    (round ((audio.length * to_r : ℚ) / from_r)
      - ((resample_audio from_r to_r fin process audio).length : ℤ)).natAbs ≤ 1 := by
  have hflat := resample_blocks_length_ge fin fout from_r to_r process hfin hp hrateq audio
  have hle : audio.length * to_r / from_r
      ≤ (resample_blocks fin process audio).length := by
    calc audio.length * to_r / from_r
        ≤ (resample_blocks fin process audio).length * from_r / from_r :=
          Nat.div_le_div_right hflat
      _ = (resample_blocks fin process audio).length :=
          Nat.mul_div_cancel _ hfrom
  have hlen : (resample_audio from_r to_r fin process audio).length
      = audio.length * to_r / from_r := by
    simp only [resample_audio, if_neg hne]
    rw [List.length_take _ _]
    exact Nat.min_eq_left hle
  refine ⟨hlen, ?_⟩
  rw [hlen]
  set N := audio.length with hN
  set k := N * to_r / from_r with hk
  have hqlow : ((k : ℚ)) ≤ (N * to_r : ℚ) / from_r := by
    rw [le_div_iff₀ (by exact_mod_cast hfrom)]
    have hnat : k * from_r ≤ N * to_r := Nat.div_mul_le_self _ _
    exact_mod_cast hnat
  have hqhigh : (N * to_r : ℚ) / from_r < (k : ℚ) + 1 := by
    rw [div_lt_iff₀ (by exact_mod_cast hfrom)]
    have hnat : N * to_r < (k + 1) * from_r :=
      (Nat.div_lt_iff_lt_mul hfrom).mp (Nat.lt_succ_self k)
    exact_mod_cast hnat
  have hrlow : (k : ℤ) ≤ round ((N * to_r : ℚ) / from_r) := by
    rw [round_eq]
    apply Int.le_floor.mpr
    push_cast
    linarith
  have hrhigh : round ((N * to_r : ℚ) / from_r) ≤ (k : ℤ) + 1 := by
    rw [round_eq]
    have hfl : ⌊(N * to_r : ℚ) / from_r + 1 / 2⌋ < (k : ℤ) + 2 := by
      apply Int.floor_lt.mpr
      push_cast
      linarith
    omega
  omega

/-- Witness for C6 at a concrete downsampling by 3 of a 4-sample input. -/
theorem resample_output_length_witness :
    ((3 : ℕ) ≠ 1) ∧ (0 < 3) ∧ (0 < 3) ∧
    (∀ c : List Sample, ((fun _ => ([0] : List Sample)) c).length = 1) ∧
    (1 * 3 = 3 * 1) ∧
    ((resample_audio 3 1 3 (fun _ => ([0] : List Sample))
        [1, 1, 1, 1]).length
      = ([(1 : ℚ), 1, 1, 1] : List Sample).length * 1 / 3 ∧
    (round ((([(1 : ℚ), 1, 1, 1] : List Sample).length * 1 : ℚ) / 3)
      - ((resample_audio 3 1 3 (fun _ => ([0] : List Sample))
          [1, 1, 1, 1]).length : ℤ)).natAbs ≤ 1) :=
  ⟨by decide, by decide, by decide, fun _ => rfl, by decide,
    resample_output_length 3 1 3 1 (fun _ => ([0] : List Sample))
      [1, 1, 1, 1] (by decide) (by decide) (by decide) (fun _ => rfl)
      (by decide)⟩

/-- C1 (divergence from the claim): the capture loop does terminate at a
stop observation, but the attempt is not discarded cleanly.  With the stop
flag observed true at the first reception and no accumulated samples,
`record_audio` returns the `Audio "no audio signal"` ERROR — never
`Cancelled`, so `next`'s `Cancelled` arm is dead and `next` propagates the
error instead of returning `Ok(None)`; and with samples already
accumulated, the partial attempt is kept and handed to the resampler
rather than discarded. -/
theorem stop_signal_divergence :
    record_audio 100 1000 [(true, [0])] (fun b => .ok b)
      = .error (.Audio "no audio signal") ∧
    next_voice
        [⟨.error (.Audio "no audio signal"),
          ⟨.ok (), .ok (), .ok 0, fun _ => .error "e"⟩⟩]
      = some (.error (.Audio "no audio signal"), 1) ∧
    record_audio 100 1000 [(false, [1]), (true, [0])] (fun b => .ok b)
      = .ok [1] := by
  refine ⟨?_, by decide, ?_⟩
  · simp [record_audio, record_loop]
  · simp [record_audio, record_loop, voice_step, has_voice_one]

end AutoAI
